import Mathlib

/-!
Verification of the core parsers and process-lifecycle state machines of the
rust-svnlook crate, shallowly embedded in Lean 4.

Byte strings are modelled as `List Nat` (each element a byte value).  Paths
and other text fields produced through Rust's lossy UTF-8 decoding are kept
as their raw byte content: every input exercised by the specification is
ASCII, where the decoding is the identity on bytes.

The embedding follows, function by function:
  - src/commands.rs        (`try_chomp`)
  - src/commands/changed.rs (`SvnStatus::try_from`, `SvnChange::try_from`,
                             `SvnFrom::try_from`, `SvnChangedIter`)
  - src/commands/info.rs   (`SvnInfo::try_from`)
  - src/child_reader.rs    (`ChildReader`)
  - src/lib.rs             (`SvnlookCommand`)
Standard-library behaviour the code leans on (`u64::from_str`,
`slice::splitn`, `std::process::Child::wait`, `BufRead::read_until`) is
modelled where the functions above call it.
-/

/-- Decidable equality for `Except`, so that concrete runs of the embedded
fallible functions can be settled by `decide`. -/
instance exceptDecEq {ε α : Type} [DecidableEq ε] [DecidableEq α] :
    DecidableEq (Except ε α) := fun a b =>
  match a, b with
  | .ok x, .ok y =>
    if h : x = y then .isTrue (by rw [h])
    else .isFalse (by intro hh; cases hh; exact h rfl)
  | .error x, .error y =>
    if h : x = y then .isTrue (by rw [h])
    else .isFalse (by intro hh; cases hh; exact h rfl)
  | .ok _, .error _ => .isFalse (by intro hh; cases hh)
  | .error _, .ok _ => .isFalse (by intro hh; cases hh)

namespace Svnlook

/-- Byte values of an ASCII string literal (all inputs in this development
are ASCII, where `Char.toNat` agrees with the UTF-8 byte). -/
def ascii (s : String) : List Nat :=
  s.data.map Char.toNat

/-- Model of `SvnError` (src/lib.rs / src/error.rs).  `CommandError`
abstracts the `io::Error` payload away; `ExitFailure` carries the process
exit code (`ExitStatus`, with `success()` meaning code 0). -/
inductive SvnError where
  | CommandError : SvnError
  | ExitFailure : Nat → SvnError
  | ParseError : SvnError
deriving DecidableEq, Repr

/-- Model of `SvnFrom` (src/commands/changed.rs): the copy source of a
`Copied` change. -/
structure SvnFrom where
  path : List Nat
  revision : Nat
deriving DecidableEq, Repr

/-- `SvnFrom::default()`: empty path, revision 0 (the pending placeholder
installed by `SvnStatus::try_from` for `"A +"`). -/
def SvnFrom.dflt : SvnFrom := ⟨[], 0⟩

/-- Model of `SvnStatus` (src/commands/changed.rs). -/
inductive SvnStatus where
  | added : SvnStatus
  | copied : SvnFrom → SvnStatus
  | deleted : SvnStatus
  | updated : SvnStatus
  | propChange : SvnStatus
deriving DecidableEq, Repr

/-- Model of `SvnChange` (src/commands/changed.rs). -/
structure SvnChange where
  path : List Nat
  status : SvnStatus
deriving DecidableEq, Repr

/-- `try_chomp` (src/commands.rs): strip one trailing newline byte, or fail
with `ParseError` when the slice does not end in one. -/
def try_chomp (slice : List Nat) : Except SvnError (List Nat) :=
  if slice.getLast? = some 10 then .ok slice.dropLast else .error .ParseError

/-- `SvnStatus::try_from` (src/commands/changed.rs): a slice shorter than 3
bytes is rejected; otherwise its first 3 bytes are matched exactly against
the six status codes.  The byte values spell `"A  "`, `"A +"`, `"D  "`,
`"U  "`, `"_U "`, `"UU "`. -/
def SvnStatus.tryFrom (s : List Nat) : Except SvnError SvnStatus :=
  if s.length < 3 then .error .ParseError
  else
    let c := s.take 3
    if c = [65, 32, 32] then .ok .added
    else if c = [65, 32, 43] then .ok (.copied SvnFrom.dflt)
    else if c = [68, 32, 32] then .ok .deleted
    else if c = [85, 32, 32] then .ok .updated
    else if c = [95, 85, 32] then .ok .propChange
    else if c = [85, 85, 32] then .ok .updated
    else .error .ParseError

/-- `SvnChange::try_from` (src/commands/changed.rs): chomp the newline,
require at least 4 remaining bytes, split after byte 4 (`split_at(4)`), the
first 4 bytes feed `SvnStatus::try_from` and the rest is the path. -/
def SvnChange.tryFrom (line : List Nat) : Except SvnError SvnChange :=
  match try_chomp line with
  | .error e => .error e
  | .ok l =>
    if l.length < 4 then .error .ParseError
    else
      match SvnStatus.tryFrom (l.take 4) with
      | .error e => .error e
      | .ok st => .ok ⟨l.drop 4, st⟩

/-- Model of `slice::iter().rposition(p)` specialised to searching a byte:
the index of the last occurrence of `b`, from the right. -/
def rpos (b : Nat) : List Nat → Option Nat
  | [] => none
  | x :: xs =>
    match rpos b xs with
    | some i => some (i + 1)
    | none => if x = b then some 0 else none

/-- Model of `str::from_utf8` followed by `u64::from_str` on a byte slice
(the composition used by `SvnFrom::try_from` and, as `usize::from_str` on a
64-bit host, by `SvnInfo::try_from`): it succeeds exactly on an optional
leading `'+'` followed by one or more ASCII decimal digits whose value fits
in 64 bits.  Any other byte sequence fails either UTF-8 decoding or integer
parsing, and both failures are collapsed to `none`. -/
def parseU64 (s : List Nat) : Option Nat :=
  let t := match s with
    | 43 :: rest => rest
    | other => other
  if t ≠ [] ∧ t.all (fun b => 48 ≤ b ∧ b ≤ 57) then
    let v := t.foldl (fun a b => a * 10 + (b - 48)) 0
    if v < 2 ^ 64 then some v else none
  else none

/-- `SvnFrom::try_from` (src/commands/changed.rs): chomp the newline; the
line must start with the 10 bytes `"    (from "` and end with `")"`; inside
those delimiters, split at the last `':'`; everything before it is the
path, and of the remainder (`':'` plus at least 2 bytes) the first 2 bytes
are skipped and the rest must parse as a `u64` revision. -/
def SvnFrom.tryFrom (line : List Nat) : Except SvnError SvnFrom :=
  match try_chomp line with
  | .error e => .error e
  | .ok l =>
    if (ascii "    (from ").isPrefixOf l ∧ l.getLast? = some 41 then
      let inner := (l.drop 10).dropLast
      match rpos 58 inner with
      | none => .error .ParseError
      | some pos =>
        let path := inner.take pos
        let rev := inner.drop pos
        if 2 < rev.length then
          match parseU64 (rev.drop 2) with
          | some n => .ok ⟨path, n⟩
          | none => .error .ParseError
        else .error .ParseError
    else .error .ParseError

example : SvnChange.tryFrom (ascii "A   some/path" ++ [10]) =
    .ok ⟨ascii "some/path", .added⟩ := by decide

example : SvnChange.tryFrom (ascii "A  some/path" ++ [10]) =
    .ok ⟨ascii "ome/path", .added⟩ := by decide

example : SvnFrom.tryFrom (ascii "    (from other/path:r42)" ++ [10]) =
    .ok ⟨ascii "other/path", 42⟩ := by decide

example : SvnFrom.tryFrom (ascii "    (from a:b/path:r7)" ++ [10]) =
    .ok ⟨ascii "a:b/path", 7⟩ := by decide

example : SvnFrom.tryFrom (ascii "    (from a:x7)" ++ [10]) =
    .ok ⟨ascii "a", 7⟩ := by decide

example : SvnFrom.tryFrom (ascii "    (from a:r+7)" ++ [10]) =
    .ok ⟨ascii "a", 7⟩ := by decide

example : SvnFrom.tryFrom (ascii "    (from a:r)" ++ [10]) =
    .error .ParseError := by decide

/-- Model of `chrono::DateTime<FixedOffset>` as returned by `SvnInfo`:
the parsed calendar fields plus the UTC offset in minutes. -/
structure SvnDate where
  year : Nat
  month : Nat
  day : Nat
  hour : Nat
  minute : Nat
  second : Nat
  tzMinutes : Int
deriving DecidableEq, Repr

/-- Gregorian leap-year rule, as validated by chrono. -/
def isLeap (y : Nat) : Bool :=
  (y % 4 = 0 ∧ y % 100 ≠ 0) ∨ y % 400 = 0

/-- Days in a month of the proleptic Gregorian calendar. -/
def daysInMonth (y m : Nat) : Nat :=
  if m = 2 then (if isLeap y then 29 else 28)
  else if m = 4 ∨ m = 6 ∨ m = 9 ∨ m = 11 then 30
  else 31

/-- Decimal value of two ASCII digit bytes. -/
def d2 (a b : Nat) : Nat := (a - 48) * 10 + (b - 48)

/-- Tests a byte for being an ASCII decimal digit. -/
def isDigit (b : Nat) : Bool := 48 ≤ b ∧ b ≤ 57

/-- Model of `DateTime::parse_from_str(d, "%Y-%m-%d %H:%M:%S %z")` on the
25-byte window sliced by `SvnInfo::try_from`, in the strict
`YYYY-MM-DD HH:MM:SS +HHMM` shape that fits those 25 bytes: four digit
year, literal separators, sign `+`/`-`, and chrono's calendar/offset
validation (month, day-of-month with leap years, time-of-day ranges,
absolute offset below 24 hours). -/
def parseDate (l : List Nat) : Option SvnDate :=
  match l with
  | [y1, y2, y3, y4, 45, m1, m2, 45, dd1, dd2, 32,
     h1, h2, 58, mi1, mi2, 58, s1, s2, 32, sg, o1, o2, o3, o4] =>
    if ([y1, y2, y3, y4, m1, m2, dd1, dd2, h1, h2, mi1, mi2, s1, s2,
         o1, o2, o3, o4].all isDigit ∧ (sg = 43 ∨ sg = 45)) then
      let y := d2 y1 y2 * 100 + d2 y3 y4
      let mo := d2 m1 m2
      let dy := d2 dd1 dd2
      let h := d2 h1 h2
      let mi := d2 mi1 mi2
      let s := d2 s1 s2
      let off := d2 o1 o2 * 60 + d2 o3 o4
      if 1 ≤ mo ∧ mo ≤ 12 ∧ 1 ≤ dy ∧ dy ≤ daysInMonth y mo ∧
          h < 24 ∧ mi < 60 ∧ s < 60 ∧ off < 1440 then
        some ⟨y, mo, dy, h, mi, s, if sg = 43 then (off : Int) else -(off : Int)⟩
      else none
    else none
  | _ => none

/-- Model of `SvnInfo` (src/commands/info.rs).  `committer` and `message`
are produced through `String::from_utf8_lossy` and kept here as their byte
content. -/
structure SvnInfo where
  revision : Nat
  committer : List Nat
  date : SvnDate
  message : List Nat
deriving DecidableEq, Repr

/-- Splits a byte list at the first occurrence of `delim`: the bytes before
it and the bytes after it, or `none` when it does not occur. -/
def splitFirst (delim : Nat) : List Nat → Option (List Nat × List Nat)
  | [] => none
  | b :: rest =>
    if b = delim then some ([], rest)
    else
      match splitFirst delim rest with
      | none => none
      | some (pre, post) => some (b :: pre, post)

/-- Model of `slice::splitn(n, |b| *b == delim)` collected into a list: at
most `n` pieces, only the first `n - 1` occurrences of the delimiter are
split on, and the final piece keeps any further delimiters verbatim. -/
def splitn (n delim : Nat) (s : List Nat) : List (List Nat) :=
  match n with
  | 0 => []
  | 1 => [s]
  | m + 1 =>
    match splitFirst delim s with
    | none => [s]
    | some (pre, post) => pre :: splitn m delim post

/-- `SvnInfo::try_from((revision, bytes))` (src/commands/info.rs): split the
buffer into at most 4 sections on the first 3 newlines; section 1 is the
committer; section 2 must be longer than 25 bytes and its first 25 bytes
must parse as an offset-aware date-time; section 3 must parse as a
non-negative integer `n` (`usize::from_str`); section 4 must be longer than
`n` bytes and its first `n` bytes are the message.  Every failure is
`ParseError`. -/
def SvnInfo.tryFrom (revision : Nat) (input : List Nat) : Except SvnError SvnInfo :=
  let sections := splitn 4 10 input
  match sections[0]? with
  | none => .error .ParseError
  | some committer =>
    match sections[1]?.bind
        (fun d => if 25 < d.length then parseDate (d.take 25) else none) with
    | none => .error .ParseError
    | some date =>
      match sections[2]?.bind parseU64 with
      | none => .error .ParseError
      | some n =>
        match sections[3]?.bind
            (fun m => if n < m.length then some (m.take n) else none) with
        | none => .error .ParseError
        | some msg => .ok ⟨revision, committer, date, msg⟩

example : SvnInfo.tryFrom 7
    (ascii "alice" ++ [10] ++ ascii "2020-01-02 03:04:05 +0000 (Thu)" ++ [10] ++
      ascii "5" ++ [10] ++ ascii "hello" ++ [10]) =
    .ok ⟨7, ascii "alice", ⟨2020, 1, 2, 3, 4, 5, 0⟩, ascii "hello"⟩ := by decide

example : splitn 4 10 (ascii "a" ++ [10] ++ ascii "b" ++ [10] ++ ascii "c" ++
    [10] ++ ascii "d" ++ [10] ++ ascii "e") =
    [ascii "a", ascii "b", ascii "c", ascii "d" ++ [10] ++ ascii "e"] := by decide


lemma splitFirst_of_append (d : Nat) (xs ys : List Nat) (h : d ∉ xs) :
    splitFirst d (xs ++ d :: ys) = some (xs, ys) := by
  induction xs with
  | nil => simp [splitFirst]
  | cons x xs ih =>
    have hx : ¬x = d := by
      intro he
      exact h (by simp [he])
    have hxs : d ∉ xs := fun hm => h (List.mem_cons_of_mem _ hm)
    simp [splitFirst, hx, ih hxs]

lemma splitn_cons_of_append (n d : Nat) (xs ys : List Nat) (h : d ∉ xs) :
    splitn (n + 2) d (xs ++ d :: ys) = xs :: splitn (n + 1) d ys := by
  simp [splitn, splitFirst_of_append d xs ys h]

/-- C2 counterexample: with the four newline-separated sections being
exactly `"alice"`, the exactly-25-byte date `"2020-01-02 03:04:05 +0000"`,
`"5"` and `"hello"` plus a trailing byte, the parser returns `ParseError`,
not success: `SvnInfo::try_from` demands the date section be strictly
longer than 25 bytes before slicing its 25-byte window. -/
theorem claimC2_counterexample :
    SvnInfo.tryFrom 7
      (ascii "alice" ++ [10] ++ ascii "2020-01-02 03:04:05 +0000" ++ [10] ++
        ascii "5" ++ [10] ++ ascii "hello" ++ [10]) =
    .error .ParseError := by decide

/-- C2 as amended: the date section must carry at least one byte beyond
the 25-byte date (the real tool appends a human-readable suffix there).
Given revision 7, committer `"alice"`, a date section whose first 25 bytes
are `"2020-01-02 03:04:05 +0000"` followed by at least one non-delimiter
byte, length `"5"`, and a final section `"hello"` plus at least one
trailing ignored byte, the parser returns the revision, committer, the
offset-aware date-time 2020-01-02T03:04:05+00:00 and message `"hello"`. -/
theorem claimC2_amended (e2 e4 : List Nat) (h2 : (10 : Nat) ∉ e2)
    (h2n : e2 ≠ []) (h4n : e4 ≠ []) :
    SvnInfo.tryFrom 7
      (ascii "alice" ++ [10] ++ (ascii "2020-01-02 03:04:05 +0000" ++ e2) ++
        [10] ++ ascii "5" ++ [10] ++ (ascii "hello" ++ e4)) =
    .ok ⟨7, ascii "alice", ⟨2020, 1, 2, 3, 4, 5, 0⟩, ascii "hello"⟩ := by
  have ha10 : (10 : Nat) ∉ ascii "alice" := by decide
  have h510 : (10 : Nat) ∉ ascii "5" := by decide
  have hde2 : (10 : Nat) ∉ ascii "2020-01-02 03:04:05 +0000" ++ e2 := by
    intro hm
    rcases List.mem_append.mp hm with hm | hm
    · exact absurd hm (by decide)
    · exact h2 hm
  have hform :
      ascii "alice" ++ [10] ++ (ascii "2020-01-02 03:04:05 +0000" ++ e2) ++
          [10] ++ ascii "5" ++ [10] ++ (ascii "hello" ++ e4) =
        ascii "alice" ++ 10 ::
          ((ascii "2020-01-02 03:04:05 +0000" ++ e2) ++ 10 ::
            (ascii "5" ++ 10 :: (ascii "hello" ++ e4))) := by
    simp [List.append_assoc]
  have hsec :
      splitn 4 10
        (ascii "alice" ++ 10 ::
          ((ascii "2020-01-02 03:04:05 +0000" ++ e2) ++ 10 ::
            (ascii "5" ++ 10 :: (ascii "hello" ++ e4)))) =
      [ascii "alice", ascii "2020-01-02 03:04:05 +0000" ++ e2, ascii "5",
        ascii "hello" ++ e4] := by
    rw [show (4 : Nat) = 2 + 2 by rfl,
      splitn_cons_of_append 2 10 _ _ ha10,
      splitn_cons_of_append 1 10 _ _ hde2,
      splitn_cons_of_append 0 10 _ _ h510]
    rfl
  have hlen2 : 25 < (ascii "2020-01-02 03:04:05 +0000" ++ e2).length := by
    have he : 0 < e2.length := List.length_pos.mpr h2n
    have hd : (ascii "2020-01-02 03:04:05 +0000").length = 25 := by decide
    simp [List.length_append, hd]
    omega
  have htake2 : (ascii "2020-01-02 03:04:05 +0000" ++ e2).take 25 =
      ascii "2020-01-02 03:04:05 +0000" := by
    have hd : (ascii "2020-01-02 03:04:05 +0000").length = 25 := by decide
    rw [← hd, List.take_left]
  have hlen4 : 5 < (ascii "hello" ++ e4).length := by
    have he : 0 < e4.length := List.length_pos.mpr h4n
    have hd : (ascii "hello").length = 5 := by decide
    simp [List.length_append, hd]
    omega
  have htake4 : (ascii "hello" ++ e4).take 5 = ascii "hello" := by
    have hd : (ascii "hello").length = 5 := by decide
    rw [← hd, List.take_left]
  have hlen2' : 25 < (ascii "2020-01-02 03:04:05 +0000").length + e2.length := by
    have he : 0 < e2.length := List.length_pos.mpr h2n
    have hd : (ascii "2020-01-02 03:04:05 +0000").length = 25 := by decide
    omega
  have hlen4' : 5 < (ascii "hello").length + e4.length := by
    have he : 0 < e4.length := List.length_pos.mpr h4n
    have hd : (ascii "hello").length = 5 := by decide
    omega
  rw [hform]
  simp only [SvnInfo.tryFrom, hsec]
  simp [hlen2, htake2, hlen4, htake4, hlen2', hlen4',
    (by decide : parseDate (ascii "2020-01-02 03:04:05 +0000") =
      some ⟨2020, 1, 2, 3, 4, 5, 0⟩),
    (by decide : parseU64 (ascii "5") = some 5)]

/-- C2 witness: the amended statement at the concrete date suffix
`" "` and trailing message byte `"\n"`. -/
theorem claimC2_witness :
    SvnInfo.tryFrom 7
      (ascii "alice" ++ [10] ++ (ascii "2020-01-02 03:04:05 +0000" ++ [32]) ++
        [10] ++ ascii "5" ++ [10] ++ (ascii "hello" ++ [10])) =
    .ok ⟨7, ascii "alice", ⟨2020, 1, 2, 3, 4, 5, 0⟩, ascii "hello"⟩ :=
  claimC2_amended [32] [10] (by decide) (by decide) (by decide)

/-- Model of `std::process::Child`: the exit code the OS will report for the
process, the wait-status cache `std` keeps inside `Child` (its documented
behaviour is that after a successful `wait` the child is reaped and the
status is returned from the cache on later calls), and an instrumentation
counter of how many OS-level waits were actually performed.  I/O failure of
the OS wait itself is not modelled (`Child::wait` is total here). -/
structure ChildS where
  osExit : Nat
  cached : Option Nat
  waits : Nat
deriving DecidableEq, Repr

/-- Events observable during finalisation, used to state in which order
`finish` releases the pipe and blocks on the process. -/
inductive FinEv where
  | closeStdout : FinEv
  | osWait : FinEv
deriving DecidableEq, Repr

/-- `Child::wait`: return the cached status when the child was already
reaped, otherwise perform the OS wait, cache its result and return it.  The
event list records whether an OS wait happened. -/
def ChildS.wait (c : ChildS) : ChildS × Nat × List FinEv :=
  match c.cached with
  | some s => (c, s, [])
  | none => (⟨c.osExit, some c.osExit, c.waits + 1⟩, c.osExit, [.osWait])

/-- Model of `ChildReader` (src/child_reader.rs): the child and whether the
stdout pipe handle is still held. -/
structure ChildReaderS where
  child : ChildS
  stdoutOpen : Bool
deriving DecidableEq, Repr

/-- `ChildReader::finish`: set `self.stdout = None` (releasing the pipe
handle), then `self.child.wait()`.  The event trace records the order:
the close strictly precedes any OS wait. -/
def ChildReaderS.finish (r : ChildReaderS) : ChildReaderS × Nat × List FinEv :=
  let r1 : ChildReaderS := ⟨r.child, false⟩
  let (c, st, ev) := r1.child.wait
  (⟨c, false⟩, st, .closeStdout :: ev)

/-- Distinguishable I/O error outcomes of `ChildReader::handle_io`:
the `BrokenPipe` error raised when the stdout handle is gone, the
`Other` error raised for a non-zero exit at end-of-data, and a
pass-through of whatever error the inner handler returned. -/
inductive IOErr where
  | brokenPipe : IOErr
  | nonZeroExit : IOErr
  | handlerFailed : IOErr
deriving DecidableEq, Repr

/-- `ChildReader::handle_io` (src/child_reader.rs): forward to the handler
when the stdout handle exists, else fail with `BrokenPipe`; on a genuine
zero-byte result, `finish()` the process first and turn the 0 into an
`Other` error when the exit status is not success.  `handler` is the result
the inner read would produce on the open pipe (`Ok` bytes read or an I/O
error, passed through). -/
def ChildReaderS.handle_io (r : ChildReaderS) (handler : Except Unit Nat) :
    ChildReaderS × Except IOErr Nat :=
  let res : Except IOErr Nat :=
    if r.stdoutOpen then
      match handler with
      | .ok n => .ok n
      | .error _ => .error .handlerFailed
    else .error .brokenPipe
  match res with
  | .ok 0 =>
    let (r1, st, _) := r.finish
    if st = 0 then (r1, .ok 0) else (r1, .error .nonZeroExit)
  | other => (r, other)

/-- `impl Drop for ChildReader`: `let _ = self.finish();`, keeping only the
state. -/
def ChildReaderS.drop (r : ChildReaderS) : ChildReaderS :=
  r.finish.1

/-- Model of `SvnlookCommand` (src/lib.rs): the child, whether the buffered
stdout handle is still held, and the future outcomes of successive
`read_until` calls while it is: each entry is either an I/O error or the
chunk of bytes appended to the caller's buffer (up to and including one
newline, or a trailing unterminated chunk).  Once the entries run out the
pipe is at genuine end-of-data and `read_until` appends nothing. -/
structure SvnlookCmdS where
  child : ChildS
  stdoutOpen : Bool
  pendingReads : List (Except Unit (List Nat))
deriving DecidableEq, Repr

/-- `SvnlookCommand::finish` (src/lib.rs): `self.stdout = None`, then
`self.child.wait()`, same shape as `ChildReader::finish`. -/
def SvnlookCmdS.finish (s : SvnlookCmdS) : SvnlookCmdS × Nat × List FinEv :=
  let s1 : SvnlookCmdS := ⟨s.child, false, s.pendingReads⟩
  let (c, st, ev) := s1.child.wait
  (⟨c, false, s1.pendingReads⟩, st, .closeStdout :: ev)

/-- `BufRead::read_until(b'\n', &mut buf)` through `SvnlookCommand`
(src/lib.rs): an error when the stdout handle is gone (`fill_buf` returns
the "closed" error), otherwise the next pending outcome, or 0 bytes
appended (`.ok []`) at genuine end-of-data. -/
def SvnlookCmdS.read_until (s : SvnlookCmdS) :
    SvnlookCmdS × Except Unit (List Nat) :=
  if s.stdoutOpen then
    match s.pendingReads with
    | [] => (s, .ok [])
    | r :: rest => (⟨s.child, s.stdoutOpen, rest⟩, r)
  else (s, .error ())

/-- Model of `SvnChangedIter` (src/commands/changed.rs): the owned command
stream, the line buffer, and the `finished` flag. -/
structure SvnChangedIterS where
  svnlook : SvnlookCmdS
  line : List Nat
  finished : Bool
deriving DecidableEq, Repr

/-- `SvnChangedIter::parse` (src/commands/changed.rs): parse the buffered
line as an `SvnChange`; when its status is `Copied`, clear the buffer, read
one continuation line and replace the status with the parsed `SvnFrom`,
any failure becoming this item's error. -/
def SvnChangedIterS.parse (it : SvnChangedIterS) :
    Except SvnError SvnChange × SvnChangedIterS :=
  match SvnChange.tryFrom it.line with
  | .error e => (.error e, it)
  | .ok change =>
    match change.status with
    | .copied _ =>
      let it1 : SvnChangedIterS := ⟨it.svnlook, [], it.finished⟩
      let (s1, res) := it1.svnlook.read_until
      match res with
      | .error _ => (.error .CommandError, ⟨s1, it1.line, it1.finished⟩)
      | .ok chunk =>
        let it2 : SvnChangedIterS := ⟨s1, it1.line ++ chunk, it1.finished⟩
        match SvnFrom.tryFrom it2.line with
        | .error e => (.error e, it2)
        | .ok f => (.ok ⟨change.path, .copied f⟩, it2)
    | _ => (.ok change, ⟨it.svnlook, [], it.finished⟩)

/-- `<SvnChangedIter as Iterator>::next` (src/commands/changed.rs): clear
the line buffer; produce nothing when finished; otherwise read one line:
0 bytes means end-of-data, so set `finished`, `finish()` the stream and
yield nothing on success or one final `ExitFailure`; a read error is one
`CommandError` item; otherwise parse the record (one line, or two for a
copy). -/
def SvnChangedIterS.next (it : SvnChangedIterS) :
    Option (Except SvnError SvnChange) × SvnChangedIterS :=
  let it0 : SvnChangedIterS := ⟨it.svnlook, [], it.finished⟩
  if it0.finished then (none, it0)
  else
    let (s1, res) := it0.svnlook.read_until
    match res with
    | .ok [] =>
      let it1 : SvnChangedIterS := ⟨s1, [], true⟩
      let (s2, st, _) := it1.svnlook.finish
      if st = 0 then (none, ⟨s2, it1.line, true⟩)
      else (some (.error (.ExitFailure st)), ⟨s2, it1.line, true⟩)
    | .ok chunk =>
      let it1 : SvnChangedIterS := ⟨s1, it0.line ++ chunk, it0.finished⟩
      let (item, it2) := it1.parse
      (some item, it2)
    | .error _ => (some (.error .CommandError), ⟨s1, it0.line, it0.finished⟩)

/-- `impl Drop for SvnChangedIter`: `let _ = self.svnlook.finish();`. -/
def SvnChangedIterS.drop (it : SvnChangedIterS) : SvnChangedIterS :=
  ⟨it.svnlook.finish.1, it.line, it.finished⟩

example :
    SvnChangedIterS.next
      ⟨⟨⟨0, none, 0⟩, true, [.ok (ascii "A +x" ++ [10]),
        -- the status bytes are "A +" and the path is the (empty) remainder
        -- after the separator byte

        .ok (ascii "    (from other/path:r42)" ++ [10])]⟩, [], false⟩ =
    (some (.ok ⟨[], .copied ⟨ascii "other/path", 42⟩⟩),
      ⟨⟨⟨0, none, 0⟩, true, []⟩, ascii "    (from other/path:r42)" ++ [10], false⟩) := by
  decide

example :
    SvnChangedIterS.next ⟨⟨⟨3, none, 0⟩, true, []⟩, [], false⟩ =
    (some (.error (.ExitFailure 3)), ⟨⟨⟨3, some 3, 1⟩, false, []⟩, [], true⟩) := by
  decide

example :
    SvnChangedIterS.next ⟨⟨⟨0, none, 0⟩, true, []⟩, [], false⟩ =
    (none, ⟨⟨⟨0, some 0, 1⟩, false, []⟩, [], true⟩) := by
  decide

lemma try_chomp_concat (l : List Nat) : try_chomp (l ++ [10]) = .ok l := by
  simp [try_chomp]

lemma try_chomp_no_newline (l : List Nat) (h : l.getLast? ≠ some 10) :
    try_chomp l = .error .ParseError := by
  simp [try_chomp, h]

/-- C10: an input line to `SvnChange::try_from` or `SvnFrom::try_from` that
does not end with the newline byte is rejected with `ParseError`, whatever
its content: `try_chomp` refuses it before any parsing happens. -/
theorem claimC10 (l : List Nat) (h : l.getLast? ≠ some 10) :
    SvnChange.tryFrom l = .error .ParseError ∧
    SvnFrom.tryFrom l = .error .ParseError := by
  rw [SvnChange.tryFrom, SvnFrom.tryFrom, try_chomp_no_newline l h]
  exact ⟨rfl, rfl⟩

/-- C10 witness: the otherwise well-formed but unterminated line `"A  x"`
is rejected by both parsers. -/
theorem claimC10_witness :
    SvnChange.tryFrom (ascii "A  x") = .error .ParseError ∧
    SvnFrom.tryFrom (ascii "A  x") = .error .ParseError :=
  claimC10 (ascii "A  x") (by decide)

/-- C9: dropping the change iterator (or the reader) finalises the stream:
the teardown of `SvnChangedIter` invokes `finish()` on its
`SvnlookCommand`, and that of `ChildReader` invokes its own `finish()`, so
afterwards the pipe handle is released and the child has been reaped (its
wait status is cached, i.e. the process was waited on). -/
theorem claimC9 (it : SvnChangedIterS) (r : ChildReaderS) :
    it.drop.svnlook.stdoutOpen = false ∧
    (∃ st, it.drop.svnlook.child.cached = some st) ∧
    r.drop.stdoutOpen = false ∧
    (∃ st, r.drop.child.cached = some st) := by
  refine ⟨rfl, ?_, rfl, ?_⟩
  · cases h : it.svnlook.child.cached with
    | none =>
      exact ⟨it.svnlook.child.osExit, by
        simp [SvnChangedIterS.drop, SvnlookCmdS.finish, ChildS.wait, h]⟩
    | some s =>
      exact ⟨s, by simp [SvnChangedIterS.drop, SvnlookCmdS.finish, ChildS.wait, h]⟩
  · cases h : r.child.cached with
    | none =>
      exact ⟨r.child.osExit, by
        simp [ChildReaderS.drop, ChildReaderS.finish, ChildS.wait, h]⟩
    | some s =>
      exact ⟨s, by simp [ChildReaderS.drop, ChildReaderS.finish, ChildS.wait, h]⟩

/-- C4: `finish()` on both stream types releases the pipe handle before
blocking on the process (the finalisation trace starts with the close, and
any OS wait comes strictly after), and `finish()` is idempotent: a second
invocation returns the same status from the cache, performing no further OS
wait. -/
theorem claimC4 (r : ChildReaderS) (s : SvnlookCmdS) :
    (∃ tl, r.finish.2.2 = FinEv.closeStdout :: tl ∧ FinEv.closeStdout ∉ tl) ∧
    r.finish.1.stdoutOpen = false ∧
    (r.finish.1.finish.2.1 = r.finish.2.1 ∧
      FinEv.osWait ∉ r.finish.1.finish.2.2 ∧
      r.finish.1.finish.1.child.waits = r.finish.1.child.waits) ∧
    (∃ tl, s.finish.2.2 = FinEv.closeStdout :: tl ∧ FinEv.closeStdout ∉ tl) ∧
    s.finish.1.stdoutOpen = false ∧
    (s.finish.1.finish.2.1 = s.finish.2.1 ∧
      FinEv.osWait ∉ s.finish.1.finish.2.2 ∧
      s.finish.1.finish.1.child.waits = s.finish.1.child.waits) := by
  cases hr : r.child.cached <;> cases hs : s.child.cached <;>
    simp [ChildReaderS.finish, SvnlookCmdS.finish, ChildS.wait, hr, hs]

/-- C3: at a genuine zero-byte read (true end-of-data) the process is
finalised first and a failing exit status is never presented as clean
completion.  For the stream (`ChildReader::handle_io`): a zero-byte result
with a non-zero exit becomes an error, with the pipe released and the child
reaped, while a zero exit passes the 0 through.  For the iterator
(`SvnChangedIter::next`): at end-of-data with a non-zero exit it yields
exactly one final `ExitFailure` item and transitions to `Finished`; with a
zero exit it ends with no further items; and from `Finished` it produces
nothing ever after. -/
theorem claimC3 (r : ChildReaderS) (it : SvnChangedIterS) :
    (r.stdoutOpen = true → r.child.cached = none → r.child.osExit ≠ 0 →
      (r.handle_io (.ok 0)).2 = .error .nonZeroExit ∧
      (r.handle_io (.ok 0)).1.child.cached = some r.child.osExit ∧
      (r.handle_io (.ok 0)).1.stdoutOpen = false) ∧
    (r.stdoutOpen = true → r.child.cached = none → r.child.osExit = 0 →
      (r.handle_io (.ok 0)).2 = .ok 0) ∧
    (it.finished = false → it.svnlook.stdoutOpen = true →
      it.svnlook.pendingReads = [] → it.svnlook.child.cached = none →
      ((it.svnlook.child.osExit ≠ 0 →
         it.next.1 = some (.error (.ExitFailure it.svnlook.child.osExit)) ∧
         it.next.2.finished = true) ∧
       (it.svnlook.child.osExit = 0 →
         it.next.1 = none ∧ it.next.2.finished = true))) ∧
    (it.finished = true → it.next.1 = none ∧ it.next.2.finished = true) := by
  refine ⟨?_, ?_, ?_, ?_⟩
  · intro ho hc he
    simp [ChildReaderS.handle_io, ChildReaderS.finish, ChildS.wait, ho, hc, he]
  · intro ho hc he
    simp [ChildReaderS.handle_io, ChildReaderS.finish, ChildS.wait, ho, hc, he]
  · intro hf ho hp hc
    constructor
    · intro he
      simp [SvnChangedIterS.next, SvnlookCmdS.read_until, SvnlookCmdS.finish,
        ChildS.wait, hf, ho, hp, hc, he]
    · intro he
      simp [SvnChangedIterS.next, SvnlookCmdS.read_until, SvnlookCmdS.finish,
        ChildS.wait, hf, ho, hp, hc, he]
  · intro hf
    simp [SvnChangedIterS.next, hf]

/-- C7: a record-level `ParseError` item never ends the sequence: whenever
`next` yields it, the iterator is not `Finished` afterwards, and any
non-finished call with data pending consumes at least one further read;
whenever a call does transition the iterator to `Finished`, the item it
yields is clean termination or a terminal `ExitFailure` (it was already
finished, or the end-of-data path ran). -/
theorem claimC7 (it : SvnChangedIterS) :
    (it.next.1 = some (.error .ParseError) → it.next.2.finished = false) ∧
    (it.finished = false → it.svnlook.stdoutOpen = true →
      it.svnlook.pendingReads ≠ [] →
      it.next.2.svnlook.pendingReads.length < it.svnlook.pendingReads.length) ∧
    (it.next.2.finished = true →
      it.finished = true ∨ it.next.1 = none ∨
      ∃ st, st ≠ 0 ∧ it.next.1 = some (.error (.ExitFailure st))) := by
  by_cases hf : it.finished = true
  · simp [SvnChangedIterS.next, hf]
  · replace hf : it.finished = false := by simpa using hf
    by_cases ho : it.svnlook.stdoutOpen = true
    · rcases hp : it.svnlook.pendingReads with _ | ⟨r, rest⟩
      · rcases hw : it.svnlook.child.cached with _ | s
        · by_cases he : it.svnlook.child.osExit = 0 <;>
            simp [SvnChangedIterS.next, SvnlookCmdS.read_until, SvnlookCmdS.finish,
              ChildS.wait, hf, ho, hp, hw, he]
        · by_cases he : s = 0 <;>
            simp [SvnChangedIterS.next, SvnlookCmdS.read_until, SvnlookCmdS.finish,
              ChildS.wait, hf, ho, hp, hw, he]
      · rcases r with e | chunk
        · simp [SvnChangedIterS.next, SvnlookCmdS.read_until, hf, ho, hp]
        · rcases chunk with _ | ⟨b, bs⟩
          · rcases hw : it.svnlook.child.cached with _ | s
            · by_cases he : it.svnlook.child.osExit = 0 <;>
                simp [SvnChangedIterS.next, SvnlookCmdS.read_until, SvnlookCmdS.finish,
                  ChildS.wait, hf, ho, hp, hw, he]
            · by_cases he : s = 0 <;>
                simp [SvnChangedIterS.next, SvnlookCmdS.read_until, SvnlookCmdS.finish,
                  ChildS.wait, hf, ho, hp, hw, he]
          · rcases hc : SvnChange.tryFrom (b :: bs) with e | change
            · simp [SvnChangedIterS.next, SvnChangedIterS.parse, SvnlookCmdS.read_until,
                hf, ho, hp, hc]
            · rcases hst : change.status with _ | f | _ | _ | _
              · simp [SvnChangedIterS.next, SvnChangedIterS.parse,
                  SvnlookCmdS.read_until, hf, ho, hp, hc, hst]
              · rcases hrest : rest with _ | ⟨r2, rest2⟩
                · simp [SvnChangedIterS.next, SvnChangedIterS.parse,
                    SvnlookCmdS.read_until, hf, ho, hp, hc, hst, hrest,
                    (by decide : SvnFrom.tryFrom [] = .error .ParseError)]
                · rcases r2 with e2 | l2
                  · simp [SvnChangedIterS.next, SvnChangedIterS.parse,
                      SvnlookCmdS.read_until, hf, ho, hp, hc, hst, hrest]
                    omega
                  · rcases hc2 : SvnFrom.tryFrom l2 with e2 | f2 <;>
                      · simp [SvnChangedIterS.next, SvnChangedIterS.parse,
                          SvnlookCmdS.read_until, hf, ho, hp, hc, hst, hrest, hc2]
                        omega
              all_goals
                simp [SvnChangedIterS.next, SvnChangedIterS.parse,
                  SvnlookCmdS.read_until, hf, ho, hp, hc, hst]
    · replace ho : it.svnlook.stdoutOpen = false := by simpa using ho
      simp [SvnChangedIterS.next, SvnlookCmdS.read_until, hf, ho]

lemma svnStatus_copied_dflt (s : List Nat) (f : SvnFrom)
    (h : SvnStatus.tryFrom s = .ok (.copied f)) : f = SvnFrom.dflt := by
  simp only [SvnStatus.tryFrom] at h
  split_ifs at h
  all_goals simp_all

lemma svnChange_tryFrom_copied (l : List Nat) (ch : SvnChange) (f : SvnFrom)
    (h : SvnChange.tryFrom l = .ok ch) (hs : ch.status = .copied f) :
    SvnChange.tryFrom l = .ok ⟨ch.path, .copied SvnFrom.dflt⟩ := by
  have hdflt : f = SvnFrom.dflt := by
    simp only [SvnChange.tryFrom] at h
    split at h
    · exact absurd h (by simp)
    · split at h
      · exact absurd h (by simp)
      · rcases hss : SvnStatus.tryFrom _ with e | st
        · rw [hss] at h; exact absurd h (by simp)
        · rw [hss] at h
          simp at h
          have hstf : st = .copied f := by
            rw [← h] at hs
            simpa using hs
          rw [hstf] at hss
          exact svnStatus_copied_dflt _ f hss
  rw [h]
  have : ch = ⟨ch.path, ch.status⟩ := rfl
  rw [this, hs, hdflt]

/-- C6: every `Ok` item the iterator yields with `Copied` status was
resolved from a successfully parsed continuation line: the stream held a
first line parsing to the change with the pending placeholder and a second
line parsing (via `SvnFrom::try_from`) to exactly the copy source carried
by the item.  A failed continuation parse yields an error item, never a
`Copied` record with placeholder data. -/
theorem claimC6 (it it2 : SvnChangedIterS) (c : SvnChange) (f : SvnFrom)
    (h1 : it.next = (some (.ok c), it2)) (h2 : c.status = .copied f) :
    ∃ l1 l2 rest, it.svnlook.pendingReads = .ok l1 :: .ok l2 :: rest ∧
      SvnFrom.tryFrom l2 = .ok f ∧
      SvnChange.tryFrom l1 = .ok ⟨c.path, .copied SvnFrom.dflt⟩ := by
  by_cases hf : it.finished = true
  · simp [SvnChangedIterS.next, hf] at h1
  · replace hf : it.finished = false := by simpa using hf
    by_cases ho : it.svnlook.stdoutOpen = true
    · rcases hp : it.svnlook.pendingReads with _ | ⟨r, rest⟩
      · simp [SvnChangedIterS.next, SvnlookCmdS.read_until, SvnlookCmdS.finish,
          ChildS.wait, hf, ho, hp] at h1
        rcases hw : it.svnlook.child.cached with _ | s <;>
          simp [hw] at h1 <;> split at h1 <;> simp at h1
      · rcases r with e | chunk
        · simp [SvnChangedIterS.next, SvnlookCmdS.read_until, hf, ho, hp] at h1
        · rcases chunk with _ | ⟨b, bs⟩
          · simp [SvnChangedIterS.next, SvnlookCmdS.read_until, SvnlookCmdS.finish,
              ChildS.wait, hf, ho, hp] at h1
            rcases hw : it.svnlook.child.cached with _ | s <;>
              simp [hw] at h1 <;> split at h1 <;> simp at h1
          · rcases hc : SvnChange.tryFrom (b :: bs) with e | change
            · simp [SvnChangedIterS.next, SvnChangedIterS.parse,
                SvnlookCmdS.read_until, hf, ho, hp, hc] at h1
            · rcases hst : change.status with _ | f0 | _ | _ | _
              · simp [SvnChangedIterS.next, SvnChangedIterS.parse,
                  SvnlookCmdS.read_until, hf, ho, hp, hc, hst] at h1
                rw [← h1.1] at h2
                simp [hst] at h2
              · rcases hrest : rest with _ | ⟨r2, rest2⟩
                · simp [SvnChangedIterS.next, SvnChangedIterS.parse,
                    SvnlookCmdS.read_until, hf, ho, hp, hc, hst, hrest,
                    (by decide : SvnFrom.tryFrom [] = .error .ParseError)] at h1
                · rcases r2 with e2 | l2
                  · simp [SvnChangedIterS.next, SvnChangedIterS.parse,
                      SvnlookCmdS.read_until, hf, ho, hp, hc, hst, hrest] at h1
                  · rcases hc2 : SvnFrom.tryFrom l2 with e2 | f2
                    · simp [SvnChangedIterS.next, SvnChangedIterS.parse,
                        SvnlookCmdS.read_until, hf, ho, hp, hc, hst, hrest, hc2] at h1
                    · simp [SvnChangedIterS.next, SvnChangedIterS.parse,
                        SvnlookCmdS.read_until, hf, ho, hp, hc, hst, hrest, hc2] at h1
                      have hcf : c = ⟨change.path, .copied f2⟩ := h1.1.symm
                      have hf2 : f2 = f := by
                        rw [hcf] at h2
                        simpa using h2
                      refine ⟨b :: bs, l2, rest2, by simp [hp, hrest], ?_, ?_⟩
                      · rw [hc2, hf2]
                      · have hpath : c.path = change.path := by rw [hcf]
                        rw [hpath]
                        exact svnChange_tryFrom_copied _ change f0 hc hst
              all_goals
                simp [SvnChangedIterS.next, SvnChangedIterS.parse,
                  SvnlookCmdS.read_until, hf, ho, hp, hc, hst] at h1
                rw [← h1.1] at h2
                simp [hst] at h2
    · replace ho : it.svnlook.stdoutOpen = false := by simpa using ho
      simp [SvnChangedIterS.next, SvnlookCmdS.read_until, hf, ho] at h1

/-- C6 witness: a concrete run yielding `Copied{source: "other/path",
revision: 42}` did read a first line with the pending placeholder and a
continuation line parsing to that source. -/
theorem claimC6_witness :
    ∃ l1 l2 rest,
      ([.ok (ascii "A +x" ++ [10]),
        .ok (ascii "    (from other/path:r42)" ++ [10])] :
          List (Except Unit (List Nat))) = .ok l1 :: .ok l2 :: rest ∧
      SvnFrom.tryFrom l2 = .ok ⟨ascii "other/path", 42⟩ ∧
      SvnChange.tryFrom l1 = .ok ⟨[], .copied SvnFrom.dflt⟩ :=
  claimC6
    ⟨⟨⟨0, none, 0⟩, true, [.ok (ascii "A +x" ++ [10]),
      .ok (ascii "    (from other/path:r42)" ++ [10])]⟩, [], false⟩
    ⟨⟨⟨0, none, 0⟩, true, []⟩, ascii "    (from other/path:r42)" ++ [10], false⟩
    ⟨[], .copied ⟨ascii "other/path", 42⟩⟩
    ⟨ascii "other/path", 42⟩
    (by decide) rfl

/-- Joins pieces with a single delimiter byte between consecutive pieces:
the left inverse of `splitn` used to state that splitting loses nothing. -/
def joinWith (d : Nat) : List (List Nat) → List Nat
  | [] => []
  | [s] => s
  | s :: rest => s ++ d :: joinWith d rest

lemma joinWith_cons (d : Nat) (s : List Nat) (rest : List (List Nat))
    (h : rest ≠ []) : joinWith d (s :: rest) = s ++ d :: joinWith d rest := by
  cases rest with
  | nil => exact absurd rfl h
  | cons r rs => rfl

lemma splitFirst_none (d : Nat) (l : List Nat) (h : splitFirst d l = none) :
    d ∉ l := by
  induction l with
  | nil => simp
  | cons x xs ih =>
    simp only [splitFirst] at h
    by_cases hx : x = d
    · rw [if_pos hx] at h
      exact Option.noConfusion h
    · rw [if_neg hx] at h
      rcases hs : splitFirst d xs with _ | ⟨pre, post⟩
      · have hd := ih hs
        intro hmem
        rcases List.mem_cons.mp hmem with h1 | h2
        · exact hx h1.symm
        · exact hd h2
      · rw [hs] at h
        simp at h

lemma splitFirst_some (d : Nat) (l a b : List Nat)
    (h : splitFirst d l = some (a, b)) : l = a ++ d :: b ∧ d ∉ a := by
  induction l generalizing a b with
  | nil => simp [splitFirst] at h
  | cons x xs ih =>
    simp only [splitFirst] at h
    split_ifs at h with hx
    · simp at h
      obtain ⟨ha, hb⟩ := h
      subst ha
      subst hb
      simp [hx]
    · rcases hs : splitFirst d xs with _ | ⟨pre, post⟩
      · rw [hs] at h
        simp at h
      · rw [hs] at h
        simp at h
        obtain ⟨ha, hb⟩ := h
        obtain ⟨hx1, hx2⟩ := ih pre post hs
        subst hb
        rw [← ha]
        refine ⟨by rw [hx1]; simp, ?_⟩
        intro hmem
        rcases List.mem_cons.mp hmem with h1 | h2
        · exact hx h1.symm
        · exact hx2 h2

lemma splitn_ne_nil (n d : Nat) (l : List Nat) (h : 1 ≤ n) :
    splitn n d l ≠ [] := by
  match n, h with
  | 1, _ => simp [splitn]
  | (k + 2), _ =>
    simp only [splitn]
    rcases hs : splitFirst d l with _ | ⟨pre, post⟩ <;> simp

lemma splitn_len (n d : Nat) (l : List Nat) : (splitn n d l).length ≤ n := by
  induction n generalizing l with
  | zero => simp [splitn]
  | succ m ih =>
    match m with
    | 0 => simp [splitn]
    | k + 1 =>
      simp only [splitn]
      rcases hs : splitFirst d l with _ | ⟨pre, post⟩
      · simp
      · simpa using ih post

lemma splitn_join (n d : Nat) (l : List Nat) (h : 1 ≤ n) :
    joinWith d (splitn n d l) = l := by
  induction n generalizing l with
  | zero => omega
  | succ m ih =>
    match m with
    | 0 => simp [splitn, joinWith]
    | k + 1 =>
      simp only [splitn]
      rcases hs : splitFirst d l with _ | ⟨pre, post⟩
      · simp [joinWith]
      · obtain ⟨hl, _⟩ := splitFirst_some d l pre post hs
        rw [joinWith_cons d pre _ (splitn_ne_nil (k + 1) d post (by omega)),
          ih post (by omega)]
        exact hl.symm

lemma splitn_sep_free (n d : Nat) (l : List Nat) :
    ∀ i s, i + 1 < (splitn n d l).length → (splitn n d l)[i]? = some s →
      d ∉ s := by
  induction n generalizing l with
  | zero => simp [splitn]
  | succ m ih =>
    match m with
    | 0 =>
      intro i s hi hs
      simp [splitn] at hi
    | k + 1 =>
      intro i s hi hs
      simp only [splitn] at hi hs
      rcases hf : splitFirst d l with _ | ⟨pre, post⟩
      · rw [hf] at hi
        simp at hi
      · rw [hf] at hi hs
        cases i with
        | zero =>
          simp at hs
          rw [← hs]
          exact (splitFirst_some d l pre post hf).2
        | succ j =>
          simp at hi hs
          exact ih post j s (by omega) hs

/-- C5: a change line is mapped by its first 3 bytes by exact match:
`"A  "` to Added, `"A +"` to Copied (pending placeholder), `"D  "` to
Deleted, `"U  "` and `"UU "` to Updated, `"_U "` to PropertyChanged; any
other 3-byte code, or a delimiter-stripped line shorter than 4 bytes,
gives `ParseError`; on success byte 4 is the separator and the remainder
minus the trailing delimiter is the path. -/
theorem claimC5 (l : List Nat) :
    (l.length < 4 → SvnChange.tryFrom (l ++ [10]) = .error .ParseError) ∧
    (4 ≤ l.length →
      ((l.take 3 = ascii "A  " →
         SvnChange.tryFrom (l ++ [10]) = .ok ⟨l.drop 4, .added⟩) ∧
       (l.take 3 = ascii "A +" →
         SvnChange.tryFrom (l ++ [10]) = .ok ⟨l.drop 4, .copied SvnFrom.dflt⟩) ∧
       (l.take 3 = ascii "D  " →
         SvnChange.tryFrom (l ++ [10]) = .ok ⟨l.drop 4, .deleted⟩) ∧
       (l.take 3 = ascii "U  " →
         SvnChange.tryFrom (l ++ [10]) = .ok ⟨l.drop 4, .updated⟩) ∧
       (l.take 3 = ascii "UU " →
         SvnChange.tryFrom (l ++ [10]) = .ok ⟨l.drop 4, .updated⟩) ∧
       (l.take 3 = ascii "_U " →
         SvnChange.tryFrom (l ++ [10]) = .ok ⟨l.drop 4, .propChange⟩) ∧
       (l.take 3 ≠ ascii "A  " → l.take 3 ≠ ascii "A +" → l.take 3 ≠ ascii "D  " →
        l.take 3 ≠ ascii "U  " → l.take 3 ≠ ascii "UU " → l.take 3 ≠ ascii "_U " →
        SvnChange.tryFrom (l ++ [10]) = .error .ParseError))) := by
  have eA2 : ascii "A  " = [65, 32, 32] := by decide
  have eAp : ascii "A +" = [65, 32, 43] := by decide
  have eD : ascii "D  " = [68, 32, 32] := by decide
  have eU : ascii "U  " = [85, 32, 32] := by decide
  have eUU : ascii "UU " = [85, 85, 32] := by decide
  have ePU : ascii "_U " = [95, 85, 32] := by decide
  constructor
  · intro h4
    simp [SvnChange.tryFrom, try_chomp_concat, h4]
  · intro h4
    have h4' : ¬l.length < 4 := by omega
    have htake : (l.take 4).take 3 = l.take 3 := by
      rw [List.take_take]
      norm_num
    have hlen3 : ¬(l.take 4).length < 3 := by
      simp [List.length_take]
      omega
    have hl3 : ¬l.length < 3 := by omega
    refine ⟨?_, ?_, ?_, ?_, ?_, ?_, ?_⟩
    · intro h
      rw [eA2] at h
      simp [SvnChange.tryFrom, try_chomp_concat, h4', SvnStatus.tryFrom, hlen3, hl3, htake, h]
    · intro h
      rw [eAp] at h
      simp [SvnChange.tryFrom, try_chomp_concat, h4', SvnStatus.tryFrom, hlen3, hl3, htake, h]
    · intro h
      rw [eD] at h
      simp [SvnChange.tryFrom, try_chomp_concat, h4', SvnStatus.tryFrom, hlen3, hl3, htake, h]
    · intro h
      rw [eU] at h
      simp [SvnChange.tryFrom, try_chomp_concat, h4', SvnStatus.tryFrom, hlen3, hl3, htake, h]
    · intro h
      rw [eUU] at h
      simp [SvnChange.tryFrom, try_chomp_concat, h4', SvnStatus.tryFrom, hlen3, hl3, htake, h]
    · intro h
      rw [ePU] at h
      simp [SvnChange.tryFrom, try_chomp_concat, h4', SvnStatus.tryFrom, hlen3, hl3, htake, h]
    · intro h1 h2 h3 h5 h6 h7
      rw [eA2] at h1
      rw [eAp] at h2
      rw [eD] at h3
      rw [eU] at h5
      rw [eUU] at h6
      rw [ePU] at h7
      simp [SvnChange.tryFrom, try_chomp_concat, h4', SvnStatus.tryFrom, hlen3, hl3, htake,
        h1, h2, h3, h5, h6, h7]

lemma rpos_none_iff (b : Nat) (l : List Nat) : rpos b l = none ↔ b ∉ l := by
  induction l with
  | nil => simp [rpos]
  | cons x xs ih =>
    simp only [rpos]
    rcases hx : rpos b xs with _ | j
    · by_cases hxb : x = b
      · simp [hxb]
      · have hmem : b ∉ xs := ih.mp hx
        simp [hxb, hmem]
        omega
    · have hmem : b ∈ xs := by
        by_contra hno
        rw [ih.mpr hno] at hx
        exact Option.noConfusion hx
      simp [hmem]

lemma rpos_append_of_not_mem (b : Nat) (xs ys : List Nat) (h : b ∉ ys) :
    rpos b (xs ++ b :: ys) = some xs.length := by
  induction xs with
  | nil =>
    simp only [List.nil_append, rpos, (rpos_none_iff b ys).mpr h]
    simp
  | cons x xs ih =>
    simp only [List.cons_append, rpos, List.append_eq]
    rw [ih]
    rfl

lemma rpos_decomp (b : Nat) (l : List Nat) (i : Nat) (h : rpos b l = some i) :
    l.take i ++ b :: l.drop (i + 1) = l ∧ b ∉ l.drop (i + 1) ∧ i < l.length := by
  induction l generalizing i with
  | nil => exact Option.noConfusion h
  | cons x xs ih =>
    simp only [rpos] at h
    rcases hx : rpos b xs with _ | j <;> rw [hx] at h
    · by_cases hxb : x = b
      · rw [if_pos hxb] at h
        have hi : i = 0 := (Option.some.inj h).symm
        subst hi
        refine ⟨by simp [hxb], ?_, by simp⟩
        simpa using (rpos_none_iff b xs).mp hx
      · rw [if_neg hxb] at h
        exact Option.noConfusion h
    · have hi : i = j + 1 := (Option.some.inj h).symm
      subst hi
      obtain ⟨ht, hm, hlt⟩ := ih j hx
      refine ⟨?_, ?_, ?_⟩
      · simp only [List.take_succ_cons, List.drop_succ_cons, List.cons_append]
        rw [ht]
      · simpa using hm
      · simpa using Nat.succ_lt_succ hlt

lemma try_chomp_ok (line l : List Nat) (h : try_chomp line = .ok l) :
    line = l ++ [10] := by
  have hg : line.getLast? = some 10 := by
    by_contra hno
    rw [try_chomp_no_newline line hno] at h
    exact Except.noConfusion h
  rw [try_chomp, if_pos hg] at h
  have hl : l = line.dropLast := (Except.ok.inj h).symm
  have hne : line ≠ [] := by
    intro he
    rw [he] at hg
    exact Option.noConfusion hg
  have hlast : line.getLast hne = 10 := by
    have h2 := List.getLast?_eq_getLast line hne
    rw [h2] at hg
    exact Option.some.inj hg
  rw [hl, ← hlast]
  exact (List.dropLast_append_getLast hne).symm

lemma try_chomp_error (line : List Nat) (e : SvnError)
    (h : try_chomp line = .error e) : e = .ParseError := by
  by_cases hg : line.getLast? = some 10
  · rw [try_chomp, if_pos hg] at h
    exact Except.noConfusion h
  · exact (Except.error.inj
      ((try_chomp_no_newline line hg).symm.trans h)).symm

lemma parseU64_nil : parseU64 [] = none := by decide

lemma svnFrom_accepts (p : List Nat) (skip : Nat) (ds : List Nat) (n : Nat)
    (hskip : skip ≠ 58) (hds : (58 : Nat) ∉ ds) (hp : parseU64 ds = some n) :
    SvnFrom.tryFrom (ascii "    (from " ++ p ++ 58 :: skip :: ds ++ [41, 10]) =
      .ok ⟨p, n⟩ := by
  have hds2 : ds ≠ [] := by
    intro he
    rw [he, parseU64_nil] at hp
    exact Option.noConfusion hp
  have hform : ascii "    (from " ++ p ++ 58 :: skip :: ds ++ [41, 10] =
      (ascii "    (from " ++ p ++ 58 :: skip :: ds ++ [41]) ++ [10] := by
    simp
  have hpre : (ascii "    (from ").isPrefixOf
      (ascii "    (from " ++ p ++ 58 :: skip :: ds ++ [41]) = true := by
    apply List.isPrefixOf_iff_prefix.mpr
    exact ⟨p ++ 58 :: skip :: ds ++ [41], by simp⟩
  have hlast : (ascii "    (from " ++ p ++ 58 :: skip :: ds ++ [41]).getLast? =
      some 41 := by
    rw [show ascii "    (from " ++ p ++ 58 :: skip :: ds ++ [41] =
        (ascii "    (from " ++ p ++ 58 :: skip :: ds) ++ [41] by simp,
      List.getLast?_concat]
  have hinner :
      ((ascii "    (from " ++ p ++ 58 :: skip :: ds ++ [41]).drop 10).dropLast =
        p ++ 58 :: skip :: ds := by
    have h10 : (ascii "    (from ").length = 10 := by decide
    rw [show ascii "    (from " ++ p ++ 58 :: skip :: ds ++ [41] =
        ascii "    (from " ++ (p ++ 58 :: skip :: ds ++ [41]) by simp,
      ← h10, List.drop_left,
      show p ++ 58 :: skip :: ds ++ [41] =
        (p ++ 58 :: skip :: ds) ++ [41] by simp,
      List.dropLast_concat]
  have hmem : (58 : Nat) ∉ skip :: ds := by
    intro hm
    rcases List.mem_cons.mp hm with h1 | h1
    · exact hskip h1.symm
    · exact hds h1
  have hrpos : rpos 58 (p ++ 58 :: skip :: ds) = some p.length :=
    rpos_append_of_not_mem 58 p (skip :: ds) hmem
  have htk : (p ++ 58 :: skip :: ds).take p.length = p := List.take_left p _
  have hdr : (p ++ 58 :: skip :: ds).drop p.length = 58 :: skip :: ds :=
    List.drop_left p _
  have hlen : 2 < (58 :: skip :: ds).length := by
    have : 0 < ds.length := List.length_pos.mpr hds2
    simp
    omega
  rw [hform]
  simp only [SvnFrom.tryFrom, try_chomp_concat]
  rw [if_pos ⟨hpre, hlast⟩]
  simp only [hinner, hrpos, htk, hdr]
  rw [if_pos hlen]
  simp only [show (58 :: skip :: ds).drop 2 = ds from rfl, hp]

lemma svnFrom_complete (line : List Nat) (f : SvnFrom)
    (h : SvnFrom.tryFrom line = .ok f) :
    ∃ skip ds, line = ascii "    (from " ++ f.path ++ 58 :: skip :: ds ++ [41, 10] ∧
      skip ≠ 58 ∧ (58 : Nat) ∉ ds ∧ parseU64 ds = some f.revision := by
  rcases htc : try_chomp line with e | l
  · simp only [SvnFrom.tryFrom, htc] at h
    exact Except.noConfusion h
  · simp only [SvnFrom.tryFrom, htc] at h
    by_cases hcond :
        (ascii "    (from ").isPrefixOf l = true ∧ l.getLast? = some 41
    · rw [if_pos hcond] at h
      obtain ⟨hpre, hlast⟩ := hcond
      rcases hr : rpos 58 ((l.drop 10).dropLast) with _ | pos <;>
        simp only [hr] at h
      · exact Except.noConfusion h
      by_cases hlen : 2 < (((l.drop 10).dropLast).drop pos).length
      · rw [if_pos hlen] at h
        rcases hpu : parseU64 ((((l.drop 10).dropLast).drop pos).drop 2)
          with _ | n <;> simp only [hpu] at h
        · exact Except.noConfusion h
        have hf : f = ⟨((l.drop 10).dropLast).take pos, n⟩ :=
          (Except.ok.inj h).symm
        obtain ⟨hdecomp, hnot, hlt⟩ := rpos_decomp 58 ((l.drop 10).dropLast) pos hr
        have hline : line = l ++ [10] := try_chomp_ok line l htc
        obtain ⟨t, ht⟩ := List.isPrefixOf_iff_prefix.mp hpre
        have htne : t ≠ [] := by
          intro he
          rw [he, List.append_nil] at ht
          rw [← ht] at hlast
          exact absurd hlast (by decide)
        have htlast : t.getLast? = some 41 := by
          rw [← ht, List.getLast?_append_of_ne_nil _ htne] at hlast
          exact hlast
        have htsplit : t = t.dropLast ++ [41] :=
          (List.dropLast_append_getLast? 41 (Option.mem_def.mpr htlast)).symm
        have hdrop10 : l.drop 10 = t := by
          rw [← ht, show (10 : Nat) = (ascii "    (from ").length by decide,
            List.drop_left]
        have hinner : (l.drop 10).dropLast = t.dropLast := by rw [hdrop10]
        have htklen : ((((l.drop 10).dropLast)).take pos).length = pos := by
          rw [List.length_take]
          omega
        have hrev : ((l.drop 10).dropLast).drop pos =
            58 :: ((l.drop 10).dropLast).drop (pos + 1) := by
          conv_lhs => rw [← hdecomp]
          exact List.drop_left' htklen
        rcases hrest : ((l.drop 10).dropLast).drop (pos + 1) with _ | ⟨skip, ds⟩
        · exfalso
          rw [hrest] at hrev
          rw [hrev] at hlen
          simp at hlen
        · rw [hrest] at hrev hnot
          have hskip : skip ≠ 58 := by
            intro he
            exact hnot (by simp [he])
          have hds : (58 : Nat) ∉ ds := fun hm => hnot (List.mem_cons_of_mem _ hm)
          have hds_eq : (((l.drop 10).dropLast).drop pos).drop 2 = ds := by
            rw [hrev]
            rfl
          rw [hds_eq] at hpu
          have ht2 : t = (((l.drop 10).dropLast).take pos ++ 58 :: skip :: ds) ++ [41] := by
            have hdl : t.dropLast = ((l.drop 10).dropLast).take pos ++ 58 :: skip :: ds := by
              rw [← hinner]
              conv_lhs => rw [← hdecomp, hrest]
            conv_lhs => rw [htsplit, hdl]
          refine ⟨skip, ds, ?_, hskip, hds, ?_⟩
          · have hfpath : f.path = ((l.drop 10).dropLast).take pos := by rw [hf]
            rw [hfpath, hline]
            conv_lhs => rw [← ht, ht2]
            simp
          · have hfrev : f.revision = n := by rw [hf]
            rw [hfrev]
            exact hpu
      · rw [if_neg hlen] at h
        exact Except.noConfusion h
    · rw [if_neg hcond] at h
      exact Except.noConfusion h

lemma svnFrom_error_shape (line : List Nat) :
    SvnFrom.tryFrom line = .error .ParseError ∨
      ∃ f, SvnFrom.tryFrom line = .ok f := by
  rcases hres : SvnFrom.tryFrom line with e | f
  · left
    rcases htc : try_chomp line with e2 | l
    · have he2 : e2 = .ParseError := try_chomp_error line e2 htc
      simp only [SvnFrom.tryFrom, htc, he2] at hres
      rw [← hres]
    · simp only [SvnFrom.tryFrom, htc] at hres
      by_cases hcond :
          (ascii "    (from ").isPrefixOf l = true ∧ l.getLast? = some 41
      · rw [if_pos hcond] at hres
        rcases hr : rpos 58 ((l.drop 10).dropLast) with _ | pos <;>
          simp only [hr] at hres
        · rw [← hres]
        · by_cases hlen : 2 < (((l.drop 10).dropLast).drop pos).length
          · rw [if_pos hlen] at hres
            rcases hpu : parseU64 ((((l.drop 10).dropLast).drop pos).drop 2)
              with _ | n <;> simp only [hpu] at hres
            · rw [← hres]
            · exact Except.noConfusion hres
          · rw [if_neg hlen] at hres
            rw [← hres]
      · rw [if_neg hcond] at hres
        rw [← hres]
  · exact Or.inr ⟨f, rfl⟩

/-- C8: the Revision Info parser splits its input into at most 4 sections
on the first 3 delimiters only (joining the sections with the delimiter
reconstructs the input, and every section but the last is delimiter-free);
a successful parse returns as message exactly the first `N` bytes of the
fourth section verbatim, with bytes beyond `N` ignored; a third section
that does not parse as a non-negative integer, or a fourth section whose
length does not exceed `N`, yields `ParseError`. -/
theorem claimC8 (rev : Nat) (input : List Nat) :
    (splitn 4 10 input).length ≤ 4 ∧
    joinWith 10 (splitn 4 10 input) = input ∧
    (∀ i s, i + 1 < (splitn 4 10 input).length →
      (splitn 4 10 input)[i]? = some s → (10 : Nat) ∉ s) ∧
    (∀ inf, SvnInfo.tryFrom rev input = .ok inf →
      ∃ s3 s4 n, (splitn 4 10 input)[2]? = some s3 ∧
        (splitn 4 10 input)[3]? = some s4 ∧ parseU64 s3 = some n ∧
        n < s4.length ∧ inf.message = s4.take n) ∧
    (∀ s3, (splitn 4 10 input)[2]? = some s3 → parseU64 s3 = none →
      SvnInfo.tryFrom rev input = .error .ParseError) ∧
    (∀ s3 s4 n, (splitn 4 10 input)[2]? = some s3 → parseU64 s3 = some n →
      (splitn 4 10 input)[3]? = some s4 → s4.length ≤ n →
      SvnInfo.tryFrom rev input = .error .ParseError) := by
  refine ⟨splitn_len 4 10 input, splitn_join 4 10 input (by omega),
    splitn_sep_free 4 10 input, ?_, ?_, ?_⟩
  · intro inf hinf
    simp only [SvnInfo.tryFrom] at hinf
    rcases h0 : (splitn 4 10 input)[0]? with _ | committer <;>
      simp only [h0] at hinf
    · exact Except.noConfusion hinf
    · rcases h1 : (splitn 4 10 input)[1]?.bind
          (fun d => if 25 < d.length then parseDate (d.take 25) else none)
        with _ | date <;> simp only [h1] at hinf
      · exact Except.noConfusion hinf
      · rcases h2 : (splitn 4 10 input)[2]?.bind parseU64 with _ | n <;>
          simp only [h2] at hinf
        · exact Except.noConfusion hinf
        · rcases h3 : (splitn 4 10 input)[3]?.bind
              (fun m => if n < m.length then some (m.take n) else none)
            with _ | msg <;> simp only [h3] at hinf
          · exact Except.noConfusion hinf
          · obtain ⟨s3, hs3, hps3⟩ := Option.bind_eq_some.mp h2
            obtain ⟨s4, hs4, hps4⟩ := Option.bind_eq_some.mp h3
            refine ⟨s3, s4, n, hs3, hs4, hps3, ?_, ?_⟩
            · by_cases hlt : n < s4.length
              · exact hlt
              · rw [if_neg hlt] at hps4
                exact Option.noConfusion hps4
            · have hmsg : msg = s4.take n := by
                by_cases hlt : n < s4.length
                · rw [if_pos hlt] at hps4
                  exact (Option.some.inj hps4).symm
                · rw [if_neg hlt] at hps4
                  exact Option.noConfusion hps4
              have hinf2 : inf = ⟨rev, committer, date, msg⟩ :=
                (Except.ok.inj hinf).symm
              rw [hinf2, hmsg]
  · intro s3 h3 hnone
    simp only [SvnInfo.tryFrom, h3, Option.some_bind', hnone]
    rcases h0 : (splitn 4 10 input)[0]? with _ | committer
    · rfl
    · rcases h1 : (splitn 4 10 input)[1]?.bind
          (fun d => if 25 < d.length then parseDate (d.take 25) else none)
        with _ | date <;> simp [h1]
  · intro s3 s4 n h3 hn h4 hlen
    simp only [SvnInfo.tryFrom, h3, h4, Option.some_bind', hn]
    rw [if_neg (Nat.not_lt.mpr hlen)]
    rcases h0 : (splitn 4 10 input)[0]? with _ | committer
    · rfl
    · rcases h1 : (splitn 4 10 input)[1]?.bind
          (fun d => if 25 < d.length then parseDate (d.take 25) else none)
        with _ | date <;> simp [h1]

/-- C1 counterexample: the continuation line `"    (from a:x7)\\n"`, whose
revision part after the last `':'` is `"x7"` rather than `"r"` followed by
digits, is accepted with revision 7 instead of being rejected with
`ParseError`: `SvnFrom::try_from` skips the byte after the last `':'`
without checking it is `'r'`. -/
theorem claimC1_counterexample :
    SvnFrom.tryFrom (ascii "    (from a:x7)" ++ [10]) = .ok ⟨ascii "a", 7⟩ ∧
    SvnFrom.tryFrom (ascii "    (from a:x7)" ++ [10]) ≠ .error .ParseError := by
  decide

/-- C1 as amended: a continuation line is accepted exactly when it is four
spaces, `"(from "`, a source path, the last `':'` of the remaining bytes,
one arbitrary byte that is skipped without being checked (in well-formed
output it is `'r'`), and a byte sequence parsing as a u64 (decimal digits
with an optional leading `'+'`), then `')'` and the line delimiter; any
accepted line yields the source path (which may itself contain `':'`) and
the parsed revision, and every other line is rejected with `ParseError`. -/
theorem claimC1_amended (line : List Nat) :
    (∀ f : SvnFrom, SvnFrom.tryFrom line = .ok f ↔
      ∃ skip ds,
        line = ascii "    (from " ++ f.path ++ 58 :: skip :: ds ++ [41, 10] ∧
        skip ≠ 58 ∧ (58 : Nat) ∉ ds ∧ parseU64 ds = some f.revision) ∧
    (SvnFrom.tryFrom line = .error .ParseError ∨
      ∃ f, SvnFrom.tryFrom line = .ok f) := by
  refine ⟨fun f => ⟨svnFrom_complete line f, ?_⟩, svnFrom_error_shape line⟩
  rintro ⟨skip, ds, hline, hskip, hds, hp⟩
  rw [hline]
  exact svnFrom_accepts f.path skip ds f.revision hskip hds hp

end Svnlook
